import Mathlib

/-!
Verification of the Collatz longest-chain search in
`src/modules/wasm/collatz.c`.

The program works over C `unsigned int` (32-bit) values, so every
arithmetic operation is modelled on `Nat` with an explicit `% W`
(`W = 2 ^ 32`) wherever the C computation can wrap: in `nextTerm` the
product `3 * term + 1` wraps, and in `collatzChainLength` the counter
`++termsCount` wraps.  Divisions and comparisons on values below `W`
agree with the mathematical ones and are modelled directly.

The C `while (n > 1)` loop of `collatzChainLength` has no termination
bound of its own (it terminates only if the trajectory reaches a value
`≤ 1`), so it is embedded as a fuel-indexed loop returning `Option Nat`:
`none` means the loop did not finish within the given number of
iterations.  The `for (i = 0; i < upperBound; ++i)` loop of
`determineLongestChain` runs exactly `upperBound` iterations; it is
embedded structurally over the number `rem` of remaining iterations,
with the loop index `i` carried explicitly (`rem + i = upperBound`
throughout a run, so iteration bodies see `i = 0, 1, …, upperBound-1`
exactly as in the source).
-/

namespace Collatz

/-- `2 ^ 32`, one past the largest C `unsigned int` value: the modulus of
the program's 32-bit arithmetic. -/
def W : Nat := 4294967296

/-- Embedding of `nextTerm` (collatz.c lines 59-64):
`if (term % 2) return 3 * term + 1; return term / 2;` where the
multiplication and addition are 32-bit `unsigned int` operations, hence
reduced `% W`. -/
def nextTerm (term : Nat) : Nat :=
  if term % 2 ≠ 0 then (3 * term + 1) % W else term / 2

/-- Embedding of the `while (n > 1) { n = nextTerm(n); ++termsCount; }`
loop of `collatzChainLength` (collatz.c lines 50-53), indexed by fuel:
`chainLoop fuel n count` runs up to `fuel` iterations starting from term
`n` with counter value `count`, returning `none` when the loop is still
running after `fuel` iterations.  The counter is an `unsigned int`, so
its increment is reduced `% W`. -/
def chainLoop : Nat → Nat → Nat → Option Nat
  | 0, n, count => if 1 < n then none else some count
  | fuel + 1, n, count =>
      if 1 < n then chainLoop fuel (nextTerm n) ((count + 1) % W) else some count

/-- Embedding of `collatzChainLength` (collatz.c lines 46-56):
`termsCount` starts at 1, and the loop runs only under the guard
`if (number > 1)`. -/
def collatzChainLength (fuel number : Nat) : Option Nat :=
  if 1 < number then chainLoop fuel number 1 else some 1

/-- Embedding of the `for (i = 0; i < upperBound; ++i)` loop of
`determineLongestChain` (collatz.c lines 35-40), structurally recursive
on the number `rem` of remaining iterations (`rem = upperBound - i`).
Each iteration computes `collatzChainLength (i+1)` and replaces the
running best pair `lg = (lgChain[0], lgChain[1])` exactly when the new
length is strictly greater (`calculatedLength > lgChain[1]`). -/
def dlcLoop (fuel : Nat) : Nat → Nat → Nat × Nat → Option (Nat × Nat)
  | 0, _, lg => some lg
  | rem + 1, i, lg =>
      match collatzChainLength fuel (i + 1) with
      | none => none
      | some len => dlcLoop fuel rem (i + 1) (if lg.2 < len then (i + 1, len) else lg)

/-- Embedding of `determineLongestChain` (collatz.c lines 31-43):
the best pair is initialised to `(1, 1)` (`lgChain[0] = lgChain[1] = 1`)
and the loop scans `i = 0, …, upperBound - 1`, testing candidate
`i + 1`. -/
def determineLongestChain (fuel upperBound : Nat) : Option (Nat × Nat) :=
  dlcLoop fuel upperBound 0 (1, 1)

end Collatz

namespace Collatz

/-- `determineLongestChain` at `upperBound = 0` never enters the loop. -/
theorem determineLongestChain_zero (fuel : Nat) :
    determineLongestChain fuel 0 = some (1, 1) := rfl

/-- `collatzChainLength 1` is `some 1` with any fuel. -/
theorem collatzChainLength_one (fuel : Nat) :
    collatzChainLength fuel 1 = some 1 := rfl

end Collatz

namespace Collatz

/-- Trace-instrumented version of the `determineLongestChain` loop: in
addition to the final best pair it records, in order, every argument the
loop passes to `collatzChainLength`. -/
def dlcLoopT (fuel : Nat) : Nat → Nat → Nat × Nat → Option ((Nat × Nat) × List Nat)
  | 0, _, lg => some (lg, [])
  | rem + 1, i, lg =>
      match collatzChainLength fuel (i + 1) with
      | none => none
      | some len =>
          (dlcLoopT fuel rem (i + 1) (if lg.2 < len then (i + 1, len) else lg)).map
            (fun r => (r.1, (i + 1) :: r.2))

/-- `determineLongestChain`, instrumented with the list of arguments
passed to `collatzChainLength`. -/
def determineLongestChainT (fuel upperBound : Nat) : Option ((Nat × Nat) × List Nat) :=
  dlcLoopT fuel upperBound 0 (1, 1)

/-- The instrumented loop refines the plain one, and on a completed run
the recorded arguments are exactly `i + 1, i + 2, …, i + rem`. -/
theorem dlcLoopT_spec (fuel : Nat) : ∀ rem i lg res tr,
    dlcLoopT fuel rem i lg = some (res, tr) →
    dlcLoop fuel rem i lg = some res ∧ tr = List.range' (i + 1) rem := by
  intro rem
  induction rem with
  | zero =>
    intro i lg res tr h
    simp only [dlcLoopT, Option.some.injEq, Prod.mk.injEq] at h
    obtain ⟨h1, h2⟩ := h
    subst h1
    subst h2
    simp [dlcLoop, List.range']
  | succ rem ih =>
    intro i lg res tr h
    simp only [dlcLoopT] at h
    cases hc : collatzChainLength fuel (i + 1) with
    | none => rw [hc] at h; exact absurd h (by simp)
    | some len =>
      rw [hc] at h
      simp only [Option.map_eq_some'] at h
      obtain ⟨⟨res', tr'⟩, hrec, heq⟩ := h
      obtain ⟨h1, h2⟩ := ih (i + 1) _ res' tr' hrec
      simp only [Prod.mk.injEq] at heq
      refine ⟨?_, ?_⟩
      · simp only [dlcLoop, hc]
        rw [h1, heq.1]
      · rw [← heq.2, h2, List.range'_succ]

/-- C8: `determineLongestChain` applied to `upperBound = 0` examines no
candidates (the loop body never runs: zero iterations remain from the
start) and returns the initial pair `(1, 1)`, a defined no-op result
rather than an error (`some`, not `none`, for every fuel). -/
theorem claim_c8_upper_bound_zero :
    ∀ fuel : Nat, determineLongestChain fuel 0 = some (1, 1) :=
  fun _ => rfl

/-- C10: `collatzChainLength` applied to `0` terminates and returns `1`:
the guard `number > 1` fails, the loop is skipped entirely (the result
does not depend on the fuel, i.e. on how many loop iterations are
available), and the initial counter value `1` is returned. -/
theorem claim_c10_chain_length_zero :
    ∀ fuel : Nat, collatzChainLength fuel 0 = some 1 :=
  fun _ => rfl

/-- Step-count companion of `chainLoop`: the number of loop iterations
executed before the guard `n > 1` fails (`none` when fuel runs out),
without the wrapping counter. -/
def chainSteps : Nat → Nat → Option Nat
  | 0, n => if 1 < n then none else some 0
  | fuel + 1, n =>
      if 1 < n then (chainSteps fuel (nextTerm n)).map (fun k => k + 1) else some 0

/-- `chainLoop` computes `(count + number of iterations) % W`. -/
theorem chainLoop_eq_chainSteps (fuel : Nat) : ∀ n count, count < W →
    chainLoop fuel n count = (chainSteps fuel n).map (fun k => (count + k) % W) := by
  induction fuel with
  | zero =>
    intro n count hc
    by_cases h : 1 < n <;> simp [chainLoop, chainSteps, h, Nat.mod_eq_of_lt hc]
  | succ fuel ih =>
    intro n count hc
    by_cases h : 1 < n
    · have hlt : (count + 1) % W < W := Nat.mod_lt _ (by decide)
      simp only [chainLoop, chainSteps, if_pos h]
      rw [ih (nextTerm n) ((count + 1) % W) hlt]
      cases chainSteps fuel (nextTerm n) with
      | none => rfl
      | some k =>
        simp only [Option.map_some', Option.some.injEq]
        rw [Nat.mod_add_mod]
        congr 1
        omega
    · simp [chainLoop, chainSteps, h, Nat.mod_eq_of_lt hc]

/-- If the chain loop finishes in `k` iterations, the iterates of
`nextTerm` stay above `1` for the first `k` steps and reach a value `≤ 1`
at step `k` (the first exit point of the `while (n > 1)` guard). -/
theorem chainSteps_spec (fuel : Nat) : ∀ n k, chainSteps fuel n = some k →
    (∀ j, j < k → 1 < nextTerm^[j] n) ∧ nextTerm^[k] n ≤ 1 := by
  induction fuel with
  | zero =>
    intro n k h
    simp only [chainSteps] at h
    by_cases h1 : 1 < n
    · rw [if_pos h1] at h
      exact absurd h (by simp)
    · rw [if_neg h1] at h
      injection h with h'
      subst h'
      exact ⟨fun j hj => absurd hj (Nat.not_lt_zero j),
        by rw [Function.iterate_zero_apply]; exact Nat.le_of_not_lt h1⟩
  | succ fuel ih =>
    intro n k h
    simp only [chainSteps] at h
    by_cases h1 : 1 < n
    · rw [if_pos h1, Option.map_eq_some'] at h
      obtain ⟨k', hk', rfl⟩ := h
      obtain ⟨ha, hb⟩ := ih (nextTerm n) k' hk'
      constructor
      · intro j hj
        cases j with
        | zero => rw [Function.iterate_zero_apply]; exact h1
        | succ j =>
          rw [Function.iterate_succ_apply]
          exact ha j (Nat.lt_of_succ_lt_succ hj)
      · rw [Function.iterate_succ_apply]
        exact hb
    · rw [if_neg h1] at h
      injection h with h'
      subst h'
      exact ⟨fun j hj => absurd hj (Nat.not_lt_zero j),
        by rw [Function.iterate_zero_apply]; exact Nat.le_of_not_lt h1⟩

/-- `nextTerm` maps unsigned-int values to unsigned-int values. -/
theorem nextTerm_lt_W {t : Nat} (h : t < W) : nextTerm t < W := by
  unfold nextTerm
  split
  · exact Nat.mod_lt _ (by decide)
  · omega

/-- All iterates of `nextTerm` from an unsigned-int value stay below `W`. -/
theorem iterate_nextTerm_lt_W {n : Nat} (h : n < W) :
    ∀ j, nextTerm^[j] n < W := by
  intro j
  induction j with
  | zero => rw [Function.iterate_zero_apply]; exact h
  | succ j ih =>
    rw [Function.iterate_succ_apply']
    exact nextTerm_lt_W ih

/-- A chain that exits the loop does so in at most `W - 2` iterations:
before the exit all iterates are distinct values in `[2, W)` (were two
equal, the trajectory would be periodic from that point on and the exit
value `≤ 1` would already appear earlier), so there are at most `W - 2`
of them. -/
theorem chainSteps_le (fuel n k : Nat) (hn : n < W) (h : chainSteps fuel n = some k) :
    k + 2 ≤ W := by
  have hW : W = 4294967296 := rfl
  obtain ⟨ha, hb⟩ := chainSteps_spec fuel n k h
  by_contra hk
  push_neg at hk
  have key : ∀ a b, a < b → b ≤ k → nextTerm^[a] n = nextTerm^[b] n → False := by
    intro a b hab hbk heq
    have h1 : nextTerm^[k - b + a] n = nextTerm^[k - b] (nextTerm^[a] n) :=
      Function.iterate_add_apply nextTerm (k - b) a n
    have h2 : nextTerm^[k - b] (nextTerm^[b] n) = nextTerm^[k - b + b] n :=
      (Function.iterate_add_apply nextTerm (k - b) b n).symm
    have h3 : k - b + b = k := by omega
    have h4 : nextTerm^[k - b + a] n = nextTerm^[k] n := by
      rw [h1, heq, h2, h3]
    have h5 : k - b + a < k := by omega
    have h6 := ha _ h5
    rw [h4] at h6
    omega
  have hmaps : ∀ j ∈ Finset.range (W - 1), nextTerm^[j] n ∈ Finset.Ico 2 W := by
    intro j hj
    rw [Finset.mem_range] at hj
    have hjk : j < k := by omega
    have hgt := ha j hjk
    have hlt := iterate_nextTerm_lt_W hn j
    rw [Finset.mem_Ico]
    omega
  have hcard : (Finset.Ico 2 W).card < (Finset.range (W - 1)).card := by
    rw [Nat.card_Ico, Finset.card_range]
    omega
  obtain ⟨a, haF, b, hbF, hab, heq⟩ :=
    Finset.exists_ne_map_eq_of_card_lt_of_maps_to hcard hmaps
  rw [Finset.mem_range] at haF hbF
  rcases Nat.lt_or_ge a b with hlt | hge
  · exact key a b hlt (by omega) heq
  · exact key b a (by omega) (by omega) heq.symm

/-- On an unsigned-int input, a successful `collatzChainLength` run
returns exactly `1 + (number of loop iterations)`: by `chainSteps_le`
the iteration count is at most `W - 2`, so the `unsigned int` counter
`termsCount` never wraps. -/
theorem collatzChainLength_eq (fuel n c : Nat) (hn : n < W)
    (h : collatzChainLength fuel n = some c) :
    ∃ k, chainSteps fuel n = some k ∧ c = 1 + k ∧ k + 2 ≤ W := by
  have hW : W = 4294967296 := rfl
  by_cases h1 : 1 < n
  · rw [collatzChainLength, if_pos h1, chainLoop_eq_chainSteps fuel n 1 (by decide),
      Option.map_eq_some'] at h
    obtain ⟨k, hk, hc⟩ := h
    have hle := chainSteps_le fuel n k hn hk
    refine ⟨k, hk, ?_, hle⟩
    rw [← hc, Nat.mod_eq_of_lt (by omega)]
  · rw [collatzChainLength, if_neg h1] at h
    injection h with h'
    have hcs : chainSteps fuel n = some 0 := by
      cases fuel <;> simp [chainSteps, h1]
    exact ⟨0, hcs, by omega, by omega⟩

/-- Invariant of the `determineLongestChain` loop after the candidates
`1, …, i` have been examined: the running best pair `lg` holds a
candidate in range whose chain length was computed, no examined
candidate beats it, and every candidate strictly before `lg.1` is
strictly worse (so `lg.1` was the first to reach `lg.2`). -/
def BestInv (fuel i : Nat) (lg : Nat × Nat) : Prop :=
  1 ≤ lg.1 ∧ lg.1 ≤ max i 1 ∧ collatzChainLength fuel lg.1 = some lg.2 ∧
  (∀ j c, 1 ≤ j → j ≤ i → collatzChainLength fuel j = some c → c ≤ lg.2) ∧
  (∀ j c, 1 ≤ j → j < lg.1 → collatzChainLength fuel j = some c → c < lg.2)

/-- The initial pair `(1, 1)` satisfies the invariant: it is the true
chain length of candidate `1`. -/
theorem bestInv_zero (fuel : Nat) : BestInv fuel 0 (1, 1) := by
  refine ⟨Nat.le_refl 1, by simp, collatzChainLength_one fuel, ?_, ?_⟩
  · intro j c h1 h2 _
    omega
  · intro j c h1 h2 _
    omega

/-- One loop iteration preserves the invariant: the strictly-greater
comparison `calculatedLength > lgChain[1]` keeps the first candidate to
reach any given length. -/
theorem bestInv_step (fuel i len : Nat) (lg : Nat × Nat) (hinv : BestInv fuel i lg)
    (hlen : collatzChainLength fuel (i + 1) = some len) :
    BestInv fuel (i + 1) (if lg.2 < len then (i + 1, len) else lg) := by
  obtain ⟨ha, hb, hc, hmax, hfirst⟩ := hinv
  by_cases hcmp : lg.2 < len
  · rw [if_pos hcmp]
    refine ⟨Nat.succ_le_succ (Nat.zero_le i), Nat.le_max_left _ _, hlen, ?_, ?_⟩
    · intro j c h1 h2 hj
      rcases Nat.lt_or_ge j (i + 1) with hji | hji
      · have := hmax j c h1 (by omega) hj
        omega
      · have hj' : j = i + 1 := by omega
        subst hj'
        rw [hlen] at hj
        injection hj with h'
        omega
    · intro j c h1 h2 hj
      have := hmax j c h1 (by omega) hj
      omega
  · rw [if_neg hcmp]
    refine ⟨ha, le_trans hb (max_le_max (Nat.le_succ i) (Nat.le_refl 1)), hc, ?_, hfirst⟩
    intro j c h1 h2 hj
    rcases Nat.lt_or_ge j (i + 1) with hji | hji
    · exact hmax j c h1 (by omega) hj
    · have hj' : j = i + 1 := by omega
      subst hj'
      rw [hlen] at hj
      injection hj with h'
      omega

/-- Running the loop preserves the invariant across all remaining
iterations. -/
theorem dlcLoop_inv (fuel : Nat) : ∀ rem i lg res, BestInv fuel i lg →
    dlcLoop fuel rem i lg = some res → BestInv fuel (i + rem) res := by
  intro rem
  induction rem with
  | zero =>
    intro i lg res hinv h
    simp only [dlcLoop, Option.some.injEq] at h
    subst h
    simpa using hinv
  | succ rem ih =>
    intro i lg res hinv h
    simp only [dlcLoop] at h
    cases hc : collatzChainLength fuel (i + 1) with
    | none =>
      rw [hc] at h
      exact absurd h (by simp)
    | some len =>
      rw [hc] at h
      have hrec := ih (i + 1) _ res (bestInv_step fuel i len lg hinv hc) h
      have heq : i + 1 + rem = i + (rem + 1) := by omega
      rw [heq] at hrec
      exact hrec

/-- A completed run of the loop computed a chain length for every
candidate it examined. -/
theorem dlcLoop_computes (fuel : Nat) : ∀ rem i lg res,
    dlcLoop fuel rem i lg = some res →
    ∀ j, i + 1 ≤ j → j ≤ i + rem → ∃ c, collatzChainLength fuel j = some c := by
  intro rem
  induction rem with
  | zero =>
    intro i lg res _ j h1 h2
    omega
  | succ rem ih =>
    intro i lg res h j h1 h2
    simp only [dlcLoop] at h
    cases hc : collatzChainLength fuel (i + 1) with
    | none =>
      rw [hc] at h
      exact absurd h (by simp)
    | some len =>
      rw [hc] at h
      rcases Nat.eq_or_lt_of_le h1 with he | hlt
      · exact ⟨len, he ▸ hc⟩
      · exact ih (i + 1) _ res h j (by omega) (by omega)

/-- C1: on a completed run with `upperBound ≥ 1`, `determineLongestChain`
returns `(b, l)` where `l` is the maximum of the computed chain lengths
over the candidates `1, …, upperBound` (each of which was computed), `b`
is a candidate achieving `l`, and every earlier candidate is strictly
worse — i.e. `b` is the first candidate in scan order to achieve the
maximum, a later candidate with an equal length never replacing it. -/
theorem claim_c1_search_correct (fuel upperBound b l : Nat) (hub : 1 ≤ upperBound)
    (h : determineLongestChain fuel upperBound = some (b, l)) :
    1 ≤ b ∧ b ≤ upperBound ∧ collatzChainLength fuel b = some l ∧
    (∀ j, 1 ≤ j → j ≤ upperBound → ∃ c, collatzChainLength fuel j = some c ∧ c ≤ l) ∧
    (∀ j, 1 ≤ j → j < b → ∀ c, collatzChainLength fuel j = some c → c < l) := by
  have h' : dlcLoop fuel upperBound 0 (1, 1) = some (b, l) := h
  have hinv := dlcLoop_inv fuel upperBound 0 (1, 1) (b, l) (bestInv_zero fuel) h'
  have hcomp := dlcLoop_computes fuel upperBound 0 (1, 1) (b, l) h'
  rw [Nat.zero_add] at hinv
  obtain ⟨h1, h2, h3, h4, h5⟩ := hinv
  rw [Nat.max_eq_left hub] at h2
  refine ⟨h1, h2, h3, ?_, ?_⟩
  · intro j hj1 hj2
    obtain ⟨c, hc⟩ := hcomp j (by omega) (by omega)
    exact ⟨c, hc, h4 j c hj1 hj2 hc⟩
  · exact fun j hj1 hj2 c hc => h5 j c hj1 hj2 hc

/-- Witness for C1 at `fuel = 20`, `upperBound = 7`: the result is
`(7, 17)`. -/
theorem claim_c1_witness :
    1 ≤ 7 ∧ 7 ≤ 7 ∧ collatzChainLength 20 7 = some 17 ∧
    (∀ j, 1 ≤ j → j ≤ 7 → ∃ c, collatzChainLength 20 j = some c ∧ c ≤ 17) ∧
    (∀ j, 1 ≤ j → j < 7 → ∀ c, collatzChainLength 20 j = some c → c < 17) :=
  claim_c1_search_correct 20 7 7 17 (by decide) (by decide)

/-- C2 fails as stated: at the odd unsigned term `t = 1431655765` we have
`3t + 1 = 2^32`, so the 32-bit multiplication wraps and `nextTerm`
returns `0`, not `3t + 1`. -/
theorem claim_c2_counterexample :
    1 ≤ 1431655765 ∧ 1431655765 % 2 = 1 ∧
      nextTerm 1431655765 = 0 ∧ nextTerm 1431655765 ≠ 3 * 1431655765 + 1 := by
  refine ⟨by decide, by decide, ?_, ?_⟩ <;> decide

/-- C2 (amended): for every unsigned term `t ≥ 1`, `nextTerm t` returns
`(3t + 1) % 2^32` when `t` is odd — which equals `3t + 1` exactly when
`3t + 1 < 2^32` — and `t / 2` when `t` is even, with no error
condition. -/
theorem claim_c2_next_term (t : Nat) (_ht : 1 ≤ t) :
    (t % 2 = 1 → nextTerm t = (3 * t + 1) % W) ∧
    (t % 2 = 1 → 3 * t + 1 < W → nextTerm t = 3 * t + 1) ∧
    (t % 2 = 0 → nextTerm t = t / 2) := by
  refine ⟨fun h => ?_, fun h hlt => ?_, fun h => ?_⟩
  · simp [nextTerm, h]
  · simp [nextTerm, h, Nat.mod_eq_of_lt hlt]
  · simp [nextTerm, h]

/-- Witness for C2 (amended) at `t = 7` (odd) and `t = 8` (even). -/
theorem claim_c2_next_term_witness :
    nextTerm 7 = (3 * 7 + 1) % W ∧ nextTerm 7 = 3 * 7 + 1 ∧ nextTerm 8 = 8 / 2 :=
  ⟨(claim_c2_next_term 7 (by decide)).1 (by decide),
   (claim_c2_next_term 7 (by decide)).2.1 (by decide) (by decide),
   (claim_c2_next_term 8 (by decide)).2.2 (by decide)⟩

/-- C5: for every unsigned `n ≥ 1` whose chain loop finishes (with any
fuel), the returned count is at least `1`; and `collatzChainLength 1`
returns `1` for every fuel — in particular with fuel `0`, i.e. without a
single invocation of `nextTerm` being available. -/
theorem claim_c5_chain_length_positive :
    (∀ fuel n c, 1 ≤ n → n < W → collatzChainLength fuel n = some c → 1 ≤ c) ∧
    (∀ fuel, collatzChainLength fuel 1 = some 1) ∧
    collatzChainLength 0 1 = some 1 := by
  refine ⟨?_, fun _ => rfl, rfl⟩
  intro fuel n c _ hn h
  obtain ⟨k, _, hc, _⟩ := collatzChainLength_eq fuel n c hn h
  omega

/-- Witness for C5 at `n = 7`, `fuel = 20` (`collatzChainLength` is
`some 17` there). -/
theorem claim_c5_witness : 1 ≤ 17 :=
  claim_c5_chain_length_positive.1 20 7 17 (by decide) (by decide) (by decide)

/-- C6: for every unsigned `n > 1` whose chain loop finishes, the count
equals `1 +` the count for `nextTerm n` (with the fuel for one fewer
iteration). -/
theorem claim_c6_recurrence (fuel n c : Nat) (h1 : 1 < n) (hn : n < W)
    (h : collatzChainLength fuel n = some c) :
    ∃ fuel' c', collatzChainLength fuel' (nextTerm n) = some c' ∧ c = 1 + c' := by
  have hW : W = 4294967296 := rfl
  cases fuel with
  | zero =>
    rw [collatzChainLength, if_pos h1] at h
    simp [chainLoop, h1] at h
  | succ fuel =>
    obtain ⟨k, hk, hc, hkW⟩ := collatzChainLength_eq (fuel + 1) n c hn h
    rw [chainSteps, if_pos h1, Option.map_eq_some'] at hk
    obtain ⟨k', hk', rfl⟩ := hk
    refine ⟨fuel, 1 + k', ?_, by omega⟩
    by_cases h2 : 1 < nextTerm n
    · rw [collatzChainLength, if_pos h2,
        chainLoop_eq_chainSteps fuel _ 1 (by decide), hk']
      simp only [Option.map_some', Option.some.injEq]
      rw [Nat.mod_eq_of_lt (by omega)]
    · have hz : k' = 0 := by
        cases fuel with
        | zero =>
          simp only [chainSteps, if_neg h2, Option.some.injEq] at hk'
          omega
        | succ f =>
          simp only [chainSteps, if_neg h2, Option.some.injEq] at hk'
          omega
      subst hz
      rw [collatzChainLength, if_neg h2]

/-- Witness for C6 at `n = 7`, `fuel = 20` (`collatzChainLength` is
`some 17` there, and `nextTerm 7 = 22` has a chain of `16` terms). -/
theorem claim_c6_witness :
    ∃ fuel' c', collatzChainLength fuel' (nextTerm 7) = some c' ∧ 17 = 1 + c' :=
  claim_c6_recurrence 20 7 17 (by decide) (by decide) (by decide)

/-- Modelled from the spec (§4.1 and glossary): the mathematical Collatz
step, `3t + 1` for odd `t` and `t / 2` for even `t`, with no width
truncation.  Used only to compare the code's wrapping arithmetic against
the spec's intended values. -/
def nextTermNoWrap (term : Nat) : Nat :=
  if term % 2 ≠ 0 then 3 * term + 1 else term / 2

/-- Modelled from the spec (§4.2): the chain-length loop with the
mathematical Collatz step (same structure as `chainLoop`, no
wrapping). -/
def chainLoopNoWrap : Nat → Nat → Nat → Option Nat
  | 0, n, count => if 1 < n then none else some count
  | fuel + 1, n, count =>
      if 1 < n then chainLoopNoWrap fuel (nextTermNoWrap n) (count + 1) else some count

/-- Modelled from the spec (§4.2): chain length under the mathematical
Collatz step. -/
def collatzChainLengthNoWrap (fuel number : Nat) : Option Nat :=
  if 1 < number then chainLoopNoWrap fuel number 1 else some 1

set_option maxRecDepth 40000 in
/-- C4 fails on the code: with the default `upperBound = 1000000`, the
candidate `159487` is in range, and after 59 `nextTerm` steps its chain
reaches the odd term `1699000271`, whose `3t + 1 = 5097000814 ≥ 2^32`
is not representable in the program's `unsigned int`.  The code wraps
silently (`nextTerm` returns `(3t + 1) % 2^32`, not the mathematical
step value), and consequently reports chain length `246` for `159487`
where the mathematical chain has `184` terms. -/
theorem claim_c4_overflow :
    159487 ≤ 1000000 ∧
    nextTerm^[59] 159487 = 1699000271 ∧
    (1699000271 : Nat) % 2 = 1 ∧
    W ≤ 3 * 1699000271 + 1 ∧
    nextTerm 1699000271 = (3 * 1699000271 + 1) % W ∧
    nextTerm 1699000271 ≠ 3 * 1699000271 + 1 ∧
    collatzChainLength 600 159487 = some 246 ∧
    collatzChainLengthNoWrap 600 159487 = some 184 := by
  exact ⟨by decide, by decide, by decide, by decide, by decide, by decide,
    by decide, by decide⟩

/-- C7: on a completed run, `determineLongestChain` evaluates exactly
`upperBound` candidates, namely `1, 2, …, upperBound` in scan order, and
every argument it passes to `collatzChainLength` is at least `1` (zero is
never passed).  Stated via the trace-instrumented loop, which refines the
plain one. -/
theorem claim_c7_candidates (fuel upperBound : Nat) (res : Nat × Nat) (tr : List Nat)
    (h : determineLongestChainT fuel upperBound = some (res, tr)) :
    determineLongestChain fuel upperBound = some res ∧
    tr = List.range' 1 upperBound ∧
    tr.length = upperBound ∧
    ∀ a ∈ tr, 1 ≤ a := by
  obtain ⟨h1, h2⟩ := dlcLoopT_spec fuel upperBound 0 (1, 1) res tr h
  refine ⟨h1, h2, ?_, ?_⟩
  · rw [h2]
    simp [List.length_range']
  · intro a ha
    rw [h2] at ha
    have := List.mem_range'_1.mp ha
    omega

/-- Witness for C7 at `fuel = 20`, `upperBound = 3`: the candidates
examined are `[1, 2, 3]` and the best pair is `(3, 8)`. -/
theorem claim_c7_candidates_witness :
    determineLongestChain 20 3 = some (3, 8) ∧
    [1, 2, 3] = List.range' 1 3 ∧
    ([1, 2, 3] : List Nat).length = 3 ∧
    ∀ a ∈ ([1, 2, 3] : List Nat), 1 ≤ a :=
  claim_c7_candidates 20 3 (3, 8) [1, 2, 3] (by decide)

/-- A flat memory of `unsigned int` cells with a bump allocator: the
state visible to `determineLongestChain`, whose only effects are one
`malloc(2 * sizeof(unsigned int))` and stores through the returned
pointer. -/
structure Heap where
  next : Nat
  mem : Nat → Nat

/-- Store `v` at address `a`. -/
def writeH (h : Heap) (a v : Nat) : Heap :=
  ⟨h.next, fun x => if x = a then v else h.mem x⟩

/-- Load from address `a`. -/
def readH (h : Heap) (a : Nat) : Nat := h.mem a

/-- `malloc(2 * sizeof(unsigned int))`: hand out the next two free
cells. -/
def alloc2 (h : Heap) : Heap × Nat :=
  (⟨h.next + 2, h.mem⟩, h.next)

theorem readH_writeH_same (h : Heap) (a v : Nat) : readH (writeH h a v) a = v := by
  simp [readH, writeH]

theorem readH_writeH_ne (h : Heap) (a b v : Nat) (hab : b ≠ a) :
    readH (writeH h a v) b = readH h b := by
  simp [readH, writeH, hab]

/-- Heap-passing embedding of the `determineLongestChain` loop
(collatz.c lines 35-40): the best pair lives in the two heap cells
`p` (`lgChain[0]`) and `p + 1` (`lgChain[1]`). -/
def dlcLoopH (fuel : Nat) : Nat → Nat → Heap → Nat → Option Heap
  | 0, _, h, _ => some h
  | rem + 1, i, h, p =>
      match collatzChainLength fuel (i + 1) with
      | none => none
      | some len =>
          if readH h (p + 1) < len then
            dlcLoopH fuel rem (i + 1) (writeH (writeH h p (i + 1)) (p + 1) len) p
          else
            dlcLoopH fuel rem (i + 1) h p

/-- Heap-passing embedding of `determineLongestChain` (collatz.c lines
31-43): allocate the two-cell result array, initialise both cells to
`1`, run the loop, and return the final heap together with the
pointer — the caller observes the values at `p` and `p + 1`. -/
def determineLongestChainH (fuel : Nat) (heap : Heap) (upperBound : Nat) :
    Option (Heap × Nat) :=
  let hp := alloc2 heap
  let h1 := writeH (writeH hp.1 hp.2 1) (hp.2 + 1) 1
  (dlcLoopH fuel upperBound 0 h1 hp.2).map (fun h2 => (h2, hp.2))

/-- The heap-passing loop simulates the pure loop: whatever heap it runs
in, the caller-visible cells hold exactly the pure loop's best pair. -/
theorem dlcLoopH_sim (fuel : Nat) : ∀ rem i (h : Heap) (p : Nat) (lg : Nat × Nat),
    readH h p = lg.1 → readH h (p + 1) = lg.2 →
    (dlcLoopH fuel rem i h p).map (fun h2 => (readH h2 p, readH h2 (p + 1))) =
      dlcLoop fuel rem i lg := by
  intro rem
  induction rem with
  | zero =>
    intro i h p lg e1 e2
    simp [dlcLoopH, dlcLoop, e1, e2]
  | succ rem ih =>
    intro i h p lg e1 e2
    simp only [dlcLoopH, dlcLoop]
    cases hc : collatzChainLength fuel (i + 1) with
    | none => simp
    | some len =>
      simp only []
      rw [e2]
      by_cases hcmp : lg.2 < len
      · rw [if_pos hcmp, if_pos hcmp]
        apply ih
        · have hne : p ≠ p + 1 := by omega
          rw [readH_writeH_ne _ _ _ _ hne, readH_writeH_same]
        · rw [readH_writeH_same]
      · rw [if_neg hcmp, if_neg hcmp]
        exact ih (i + 1) h p lg e1 e2

/-- The caller-visible result of the heap-passing search equals the pure
search result, for every initial heap. -/
theorem determineLongestChainH_observed (fuel upperBound : Nat) (heap : Heap) :
    (determineLongestChainH fuel heap upperBound).map
        (fun r => (readH r.1 r.2, readH r.1 (r.2 + 1))) =
      determineLongestChain fuel upperBound := by
  have hne : heap.next ≠ heap.next + 1 := by omega
  have base := dlcLoopH_sim fuel upperBound 0
      (writeH (writeH ⟨heap.next + 2, heap.mem⟩ heap.next 1) (heap.next + 1) 1)
      heap.next (1, 1)
      (by rw [readH_writeH_ne _ _ _ _ hne, readH_writeH_same])
      (by rw [readH_writeH_same])
  unfold determineLongestChainH
  rw [Option.map_map]
  exact base

/-- C9: `determineLongestChain` is deterministic across calls — its
caller-visible result depends only on `upperBound` (and the fuel), not
on the heap it runs in, so two invocations with the same `upperBound`
yield identical `(bestNumber, bestLength)` pairs: there is no hidden
mutable state carried from one call to the next (in particular the
second call may run in the heap left behind by the first). -/
theorem claim_c9_deterministic (fuel upperBound : Nat) (heap1 heap2 : Heap) :
    (determineLongestChainH fuel heap1 upperBound).map
        (fun r => (readH r.1 r.2, readH r.1 (r.2 + 1))) =
      determineLongestChain fuel upperBound ∧
    (determineLongestChainH fuel heap1 upperBound).map
        (fun r => (readH r.1 r.2, readH r.1 (r.2 + 1))) =
      (determineLongestChainH fuel heap2 upperBound).map
        (fun r => (readH r.1 r.2, readH r.1 (r.2 + 1))) :=
  ⟨determineLongestChainH_observed fuel upperBound heap1,
   (determineLongestChainH_observed fuel upperBound heap1).trans
     (determineLongestChainH_observed fuel upperBound heap2).symm⟩

end Collatz
